import Mathlib

set_option linter.dupNamespace false

/-!
# tuba: `util/xtime`, `log` and `transport/httpclient`

A shallow embedding of the Go sources

* `util/xtime/time.go`  (`Time.Scan`, `Time.Value`, `Time.Time`, `Duration.UnmarshalText`),
* `log/log.go`          (`Init`, the leveled logging functions),
* `transport/httpclient` (retry loop of `Get` / `Post`, `SetRetryCount`),

together with the parts of the Go standard library those functions call
(`strconv.ParseInt`, `time.Unix`, `Time.Unix`, `time.ParseDuration`).

Machine integers are `Int` / `Nat` with explicit wrap-around; a Go `string` is a
list of bytes.
-/

namespace Go

/-- A Go `string`: an immutable sequence of bytes. -/
abbrev GoString := List UInt8

/-- The UTF-8 bytes of a string literal, as the Go compiler stores it. -/
def bytesOf (s : String) : GoString := s.data.flatMap String.utf8EncodeChar

/-- Smallest `int64`. -/
def minInt64 : Int := -9223372036854775808

/-- Largest `int64`. -/
def maxInt64 : Int := 9223372036854775807

/-- Largest `uint64`. -/
def maxUint64 : Nat := 18446744073709551615

/-- The values an `int64` variable can hold. -/
def IsInt64 (x : Int) : Prop := minInt64 ≤ x ∧ x ≤ maxInt64

instance (x : Int) : Decidable (IsInt64 x) := by unfold IsInt64; infer_instance

/-- Two's-complement wrap-around of `int64` arithmetic. -/
def wrapInt64 (x : Int) : Int :=
  (x + 9223372036854775808) % 18446744073709551616 - 9223372036854775808

/-- Wrap-around of `uint64` arithmetic. -/
def wrapUint64 (x : Nat) : Nat := x % 18446744073709551616

/-- The conversion `int64(u)` of a `uint64`. -/
def int64OfUint64 (u : Nat) : Int := wrapInt64 (Int.ofNat u)

/-- The conversion `uint64(i)` of an `int64`. -/
def uint64OfInt64 (i : Int) : Nat := (i % 18446744073709551616).toNat

end Go

namespace strconv

open Go

/-- The two sentinel errors a `*strconv.NumError` wraps: `ErrSyntax`, `ErrRange`. -/
inductive NumError where
  | ErrSyntax
  | ErrRange
  deriving DecidableEq, Repr

/-- `strconv.lower`: `c | ('x' - 'X')`. -/
def lower (c : Nat) : Nat := c ||| 32

/-- The `switch` of the digit loop of `strconv.ParseUint` with `base0` false:
the digit value of byte `c`, or `none` for the `default` branch. An
underscore reaches the letter test, fails it, and falls to `default`. -/
def digitVal (c : Nat) : Option Nat :=
  if 48 ≤ c ∧ c ≤ 57 then some (c - 48)
  else if 97 ≤ lower c ∧ lower c ≤ 122 then some (lower c - 97 + 10)
  else none

/-- The digit loop of `strconv.ParseUint(s, 10, 64)`, from accumulator `n`:
`cutoff = maxUint64/10 + 1`, `maxVal = 1<<64 - 1`. -/
def parseUintLoop (n : Nat) : GoString → Nat × Option NumError
  | [] => (n, none)
  | c :: rest =>
    match digitVal c.toNat with
    | none => (0, some .ErrSyntax)
    | some d =>
      if d ≥ 10 then (0, some .ErrSyntax)
      else if n ≥ maxUint64 / 10 + 1 then (maxUint64, some .ErrRange)
      else
        let n10 := wrapUint64 (n * 10)
        let n1 := wrapUint64 (n10 + d)
        if n1 < n10 ∨ n1 > maxUint64 then (maxUint64, some .ErrRange)
        else parseUintLoop n1 rest

/-- `strconv.ParseUint(s, 10, 64)`. -/
def ParseUint (s : GoString) : Nat × Option NumError :=
  if s = [] then (0, some .ErrSyntax) else parseUintLoop 0 s

/-- The second half of `strconv.ParseInt(s, 10, 64)`, "Convert unsigned and
check range", on the text `s` left after the sign and with `neg` set for a
leading `-`; `cutoff = 1 << 63`. -/
def convertUnsigned (neg : Bool) (s : GoString) : Int × Option NumError :=
  let (un, err) := ParseUint s
  if err ≠ none ∧ err ≠ some .ErrRange then (0, err)
  else
    let cutoff : Nat := 9223372036854775808
    if ¬ neg ∧ un ≥ cutoff then (int64OfUint64 (cutoff - 1), some .ErrRange)
    else if neg ∧ un > cutoff then (wrapInt64 (-(int64OfUint64 cutoff)), some .ErrRange)
    else
      let n := int64OfUint64 un
      let n := if neg then wrapInt64 (-n) else n
      (n, none)

/-- `strconv.ParseInt(s, 10, 64)`: the value and the error it returns. The
first half, "Pick off leading sign": `+` is 43, `-` is 45. -/
def ParseInt (s : GoString) : Int × Option NumError :=
  match s with
  | [] => (0, some .ErrSyntax)
  | c0 :: tl =>
    if c0.toNat = 43 then convertUnsigned false tl
    else if c0.toNat = 45 then convertUnsigned true tl
    else convertUnsigned false (c0 :: tl)

end strconv

namespace time

open Go

/-- The errors `time.ParseDuration` builds with `errors.New`, by message:
"time: invalid duration", "time: missing unit in duration", and
"time: unknown unit" (with the unit), each about the original text. -/
inductive ParseError where
  | invalidDuration (orig : GoString)
  | missingUnit (orig : GoString)
  | unknownUnit (u : GoString) (orig : GoString)
  deriving DecidableEq, Repr

/-- `time.leadingInt`: consume the leading `[0-9]*`, from accumulator `x`;
`none` is `errLeadingInt` (overflow past `1<<63`). -/
def leadingInt (x : Nat) : GoString → Option (Nat × GoString)
  | [] => some (x, [])
  | c :: rest =>
    if c.toNat < 48 ∨ c.toNat > 57 then some (x, c :: rest)
    else if x > 9223372036854775808 / 10 then none
    else
      let x := wrapUint64 (wrapUint64 (x * 10) + c.toNat - 48)
      if x > 9223372036854775808 then none
      else leadingInt x rest

/-- `time.leadingFraction`: consume the leading `[0-9]*` of a fraction from
accumulator `x` and `scale`; digits past the capacity of `x` are skipped
(`overflow`). `scale` is a power of ten of at most 19 digits, which float64
holds exactly. -/
def leadingFraction (x scale : Nat) (overflow : Bool) : GoString → Nat × Nat × GoString
  | [] => (x, scale, [])
  | c :: rest =>
    if c.toNat < 48 ∨ c.toNat > 57 then (x, scale, c :: rest)
    else if overflow then leadingFraction x scale overflow rest
    else if x > (9223372036854775808 - 1) / 10 then leadingFraction x scale true rest
    else
      let y := wrapUint64 (wrapUint64 (x * 10) + c.toNat - 48)
      if y > 9223372036854775808 then leadingFraction x scale true rest
      else leadingFraction y (scale * 10) overflow rest

/-- The positive float64 nearest to `a / b` (round half to even, 53-bit
significand), as a fraction; `0` for `a = 0`. Exponent range is not modelled:
the values met in `ParseDuration` lie between `2^-64` and `2^64`. -/
def roundFloat64 (a b : Nat) : Nat × Nat :=
  if a = 0 ∨ b = 0 then (0, 1)
  else
    -- shift so that 2^52 ≤ a * 2^up / (b * 2^down) < 2^53
    let la := Nat.log2 a
    let lb := Nat.log2 b
    let up0 := (lb + 53) - la
    let down0 := la - (lb + 53)
    let tooBig := a * 2 ^ up0 ≥ b * 2 ^ down0 * 2 ^ 53
    let tooSmall := a * 2 ^ up0 < b * 2 ^ down0 * 2 ^ 52
    let up := if tooSmall then up0 + 1 else up0
    let down := if tooBig then down0 + 1 else down0
    let num := a * 2 ^ up
    let den := b * 2 ^ down
    let m := num / den
    let r := num % den
    let m := if 2 * r > den ∨ (2 * r = den ∧ m % 2 = 1) then m + 1 else m
    (m * 2 ^ down, 2 ^ up)

/-- The nanoseconds of a fraction: `uint64(float64(f) * (float64(unit) / scale))`. -/
def fractionNanos (f unit scale : Nat) : Nat :=
  let ff := roundFloat64 f 1
  let q := roundFloat64 unit scale
  let p := roundFloat64 (ff.1 * q.1) (ff.2 * q.2)
  wrapUint64 (p.1 / p.2)

/-- `time.unitMap`: "ns", "us", "µs" (U+00B5), "μs" (U+03BC), "ms", "s", "m", "h". -/
def unitMap (u : GoString) : Option Nat :=
  if u = [110, 115] then some 1
  else if u = [117, 115] then some 1000
  else if u = [194, 181, 115] then some 1000
  else if u = [206, 188, 115] then some 1000
  else if u = [109, 115] then some 1000000
  else if u = [115] then some 1000000000
  else if u = [109] then some 60000000000
  else if u = [104] then some 3600000000000
  else none

/-- The unit scan of `ParseDuration`: bytes up to the first `.` or digit. -/
def unitSpan : GoString → GoString × GoString
  | [] => ([], [])
  | c :: rest =>
    if c.toNat = 46 ∨ (48 ≤ c.toNat ∧ c.toNat ≤ 57) then ([], c :: rest)
    else
      let (u, s) := unitSpan rest
      (c :: u, s)

/-- The part of `time.ParseDuration` that consumes the optional fraction:
after a `.` (byte 46), the fraction `f`, its `scale`, whether a digit was
consumed (`post`), and the text left; without a `.`, `f = 0`, `scale = 1`,
`post` false. -/
def consumeFraction (s : GoString) : Nat × Nat × Bool × GoString :=
  match s with
  | 46 :: s1 =>
    let (f, scale, s2) := leadingFraction 0 1 false s1
    (f, scale, decide (s1.length ≠ s2.length), s2)
  | _ => (0, 1, false, s)

/-- One pass of the loop `for s != ""` of `time.ParseDuration` on the text
`c :: rest` with the sum `d` so far: the text left and the new sum. -/
def parseDurationStep (orig : GoString) (c : UInt8) (rest : GoString) (d : Nat) :
    Except ParseError (GoString × Nat) :=
  let s := c :: rest
  if ¬ (c.toNat = 46 ∨ (48 ≤ c.toNat ∧ c.toNat ≤ 57)) then .error (.invalidDuration orig)
  else
    let pl := s.length
    match leadingInt 0 s with
    | none => .error (.invalidDuration orig)
    | some (v, s) =>
      let pre := pl ≠ s.length
      let (f, scale, post, s) := consumeFraction s
      if ¬ pre ∧ ¬ post then .error (.invalidDuration orig)
      else
        let (u, s) := unitSpan s
        if u = [] then .error (.missingUnit orig)
        else
          match unitMap u with
          | none => .error (.unknownUnit u orig)
          | some unit =>
            if v > 9223372036854775808 / unit then .error (.invalidDuration orig)
            else
              let v := wrapUint64 (v * unit)
              let v := if f > 0 then wrapUint64 (v + fractionNanos f unit scale) else v
              if f > 0 ∧ v > 9223372036854775808 then .error (.invalidDuration orig)
              else
                let d := wrapUint64 (d + v)
                if d > 9223372036854775808 then .error (.invalidDuration orig)
                else .ok (s, d)

/-- The loop `for s != ""` of `time.ParseDuration`, with the sum `d` so far.
Every pass consumes a unit of at least one byte, so `fuel = len(s)` passes
suffice (`parseDurationLoop_fuel`). -/
def parseDurationLoop (orig : GoString) : Nat → GoString → Nat → Except ParseError Nat
  | _, [], d => .ok d
  | 0, _ :: _, _ => .error (.invalidDuration orig)
  | fuel + 1, c :: rest, d =>
    match parseDurationStep orig c rest d with
    | .error e => .error e
    | .ok (s, d) => parseDurationLoop orig fuel s d

/-- `time.ParseDuration(s)`: the duration in nanoseconds and the error. -/
def ParseDuration (orig : GoString) : Int × Option ParseError :=
  let neg := orig.head? = some 45
  let s := if orig.head? = some 45 ∨ orig.head? = some 43 then orig.tail else orig
  if s = [48] then (0, none)
  else if s = [] then (0, some (.invalidDuration orig))
  else
    match parseDurationLoop orig s.length s 0 with
    | .error e => (0, some e)
    | .ok d =>
      if neg then (wrapInt64 (-(int64OfUint64 d)), none)
      else if d > 9223372036854775808 - 1 then (0, some (.invalidDuration orig))
      else (int64OfUint64 d, none)

/-- Go `*time.Location`, as far as the sources here distinguish it. -/
inductive Location where
  | UTC
  | Local
  | zone (name : String)
  deriving DecidableEq, Repr

/-- Go `time.Time`: `wall uint64`, `ext int64`, `loc *Location`. -/
structure Time where
  wall : Nat
  ext : Int
  loc : Location
  deriving DecidableEq, Repr

/-- `secondsPerDay`. -/
def secondsPerDay : Int := 86400

/-- `unixToInternal = (1969*365 + 1969/4 - 1969/100 + 1969/400) * secondsPerDay`. -/
def unixToInternal : Int := (1969 * 365 + 1969 / 4 - 1969 / 100 + 1969 / 400) * secondsPerDay

/-- `internalToUnix = -unixToInternal`. -/
def internalToUnix : Int := -unixToInternal

/-- `wallToInternal = (1884*365 + 1884/4 - 1884/100 + 1884/400) * secondsPerDay`. -/
def wallToInternal : Int := (1884 * 365 + 1884 / 4 - 1884 / 100 + 1884 / 400) * secondsPerDay

/-- `hasMonotonic = 1 << 63`. -/
def hasMonotonic : Nat := 9223372036854775808

/-- `nsecShift = 30`. -/
def nsecShift : Nat := 30

/-- `unixTime(sec, nsec) = Time{uint64(nsec), sec + unixToInternal, Local}`. -/
def unixTime (sec : Int) (nsec : Int) : Time :=
  { wall := uint64OfInt64 nsec, ext := wrapInt64 (sec + unixToInternal), loc := .Local }

/-- `time.Unix(sec, nsec)`: normalise `nsec` into `[0, 1e9)`, then `unixTime`.
Go's `/` on `int64` truncates toward zero (`Int.tdiv`). -/
def Unix (sec : Int) (nsec : Int) : Time :=
  if nsec < 0 ∨ nsec ≥ 1000000000 then
    let n := Int.tdiv nsec 1000000000
    let sec := wrapInt64 (sec + n)
    let nsec := wrapInt64 (nsec - wrapInt64 (n * 1000000000))
    if nsec < 0 then unixTime (wrapInt64 (sec - 1)) (wrapInt64 (nsec + 1000000000))
    else unixTime sec nsec
  else unixTime sec nsec

/-- `(*Time).sec`: seconds since year 1, from `wall` when the monotonic bit is
set (`wall<<1>>(nsecShift+1)`), else `ext`. -/
def Time.sec (t : Time) : Int :=
  if t.wall &&& hasMonotonic ≠ 0 then
    wrapInt64 (wallToInternal + int64OfUint64 (wrapUint64 (t.wall <<< 1) >>> (nsecShift + 1)))
  else t.ext

/-- `Time.Unix`: `t.sec() + internalToUnix`. -/
def Time.Unix (t : Time) : Int := wrapInt64 (t.sec + internalToUnix)

end time

/-- A Go `interface{}` holding one of the `database/sql/driver.Value` types:
`nil`, `int64`, `float64` (its IEEE-754 bits), `bool`, `[]byte`, `string`,
`time.Time`. -/
inductive GoValue where
  | nil
  | int64 (v : Int)
  | float64 (bits : Nat)
  | bool (b : Bool)
  | bytes (b : List UInt8)
  | string (s : Go.GoString)
  | time (t : time.Time)
  deriving DecidableEq, Repr

namespace xtime

open Go

/-- `type Time int64`. -/
abbrev Time := Int

/-- `func (t *Time) Scan(i interface{}) (err error)`: the receiver after the
call and the error returned. -/
def Time.Scan (t : Time) (i : GoValue) : Time × Option strconv.NumError :=
  match i with
  | .time it => (it.Unix, none)
  | .string it =>
    let (v, err) := strconv.ParseInt it
    (v, err)
  | _ => (t, none)

/-- `func (t Time) Value() (driver.Value, error)`. -/
def Time.Value (t : Time) : GoValue × Option strconv.NumError :=
  (.time (time.Unix t 0), none)

/-- `func (t Time) Time() time.Time`. -/
def Time.Time (t : Time) : time.Time := time.Unix t 0

/-- `type Duration time.Duration` (an `int64` count of nanoseconds). -/
abbrev Duration := Int

/-- `func (d *Duration) UnmarshalText(text []byte) error` over the parser it
calls (`parse` stands for `time.ParseDuration`): the receiver after the call and
the error returned. `string(text)` keeps the bytes. -/
def Duration.UnmarshalTextWith {E : Type} (parse : GoString → Int × Option E)
    (d : Duration) (text : List UInt8) : Duration × Option E :=
  let (tmp, err) := parse text
  if err.isNone then (tmp, err) else (d, err)

/-- `func (d *Duration) UnmarshalText(text []byte) error` with the standard
library's `time.ParseDuration`. -/
def Duration.UnmarshalText (d : Duration) (text : List UInt8) :
    Duration × Option time.ParseError :=
  Duration.UnmarshalTextWith time.ParseDuration d text

end xtime

namespace xtime

open Go

/-- An ASCII decimal digit, `'0'` to `'9'`. -/
def isDigit (c : UInt8) : Prop := 48 ≤ c.toNat ∧ c.toNat ≤ 57

instance (c : UInt8) : Decidable (isDigit c) := by unfold isDigit; infer_instance

/-- The number a run of decimal digits writes, read after the number `n`. -/
def decimalValue (n : Nat) : GoString → Nat
  | [] => n
  | c :: rest => decimalValue (n * 10 + (c.toNat - 48)) rest

/-- A text split into its sign (`true` for a leading `-`; a leading `+` is
dropped) and the rest. -/
def splitSign : GoString → Bool × GoString
  | [] => (false, [])
  | c :: rest =>
    if c.toNat = 43 then (false, rest)
    else if c.toNat = 45 then (true, rest)
    else (false, c :: rest)

/-- The integer a signed decimal text writes. -/
def signedValue (s : GoString) : Int :=
  if (splitSign s).1 then -(decimalValue 0 (splitSign s).2 : Int)
  else (decimalValue 0 (splitSign s).2 : Int)

/-- A valid base-10 signed 64-bit integer: an optional sign, then one or more
decimal digits, writing a number an `int64` holds. -/
def IsDecimalInt64 (s : GoString) : Prop :=
  (splitSign s).2 ≠ [] ∧ (∀ c ∈ (splitSign s).2, isDigit c) ∧ IsInt64 (signedValue s)

instance (s : GoString) : Decidable (IsDecimalInt64 s) := by
  unfold IsDecimalInt64; infer_instance

/-- The digits of `n`, most significant first, before the digits `acc`;
`fuel` bounds the number of digits. -/
def decimalDigits : Nat → Nat → GoString → GoString
  | 0, _, acc => acc
  | fuel + 1, n, acc =>
    if n / 10 = 0 then UInt8.ofNat (48 + n % 10) :: acc
    else decimalDigits fuel (n / 10) (UInt8.ofNat (48 + n % 10) :: acc)

/-- The decimal form of an integer: `-` for a negative one, then the digits of
its magnitude without leading zeros (`0` is "0"). -/
def decimalForm (v : Int) : GoString :=
  if v < 0 then 45 :: decimalDigits (v.natAbs + 1) v.natAbs []
  else decimalDigits (v.natAbs + 1) v.natAbs []

end xtime

namespace zapcore

/-- `zapcore.Level`, an `int8`. -/
abbrev Level := Int

/-- `DebugLevel Level = iota - 1`. -/
def DebugLevel : Level := -1

/-- `InfoLevel`. -/
def InfoLevel : Level := 0

/-- `WarnLevel`. -/
def WarnLevel : Level := 1

/-- `ErrorLevel`. -/
def ErrorLevel : Level := 2

/-- `DPanicLevel`. -/
def DPanicLevel : Level := 3

/-- `PanicLevel`. -/
def PanicLevel : Level := 4

/-- `FatalLevel`. -/
def FatalLevel : Level := 5

end zapcore

namespace log

open Go zapcore

/-- `type Config struct { LogPath string; AppName string; Debug bool }`. -/
structure Config where
  LogPath : GoString
  AppName : GoString
  Debug : Bool
  deriving DecidableEq, Repr

/-- `strings.Replace(s, old, new, -1)` for a non-empty `old`: every
non-overlapping instance of `old`, left to right, becomes `new`. `skip` counts
the bytes of a matched instance still to pass over. -/
def replaceAll (old new : GoString) : Nat → GoString → GoString
  | _, [] => []
  | skip + 1, _ :: rest => replaceAll old new skip rest
  | 0, c :: rest =>
    if old <+: c :: rest then new ++ replaceAll old new (old.length - 1) rest
    else c :: replaceAll old new 0 rest

/-- The `*rotatelogs.RotateLogs` that `rotatelogs.New` builds: the strftime
pattern of the files it writes and the options `WithLinkName`, `WithMaxAge`,
`WithRotationTime` (durations in nanoseconds). -/
structure RotateLogs where
  pattern : GoString
  linkName : GoString
  maxAge : Int
  rotationTime : Int
  deriving DecidableEq, Repr

/-- `time.Hour` in nanoseconds. -/
def Hour : Int := 3600000000000

/-- `func getWriter(filename string) io.Writer`; `none` is the `panic(err)` when
`rotatelogs.New` rejects the pattern. `strftimeNew` tells whether the strftime
library compiles a pattern (`strftime.New` returns a nil error). -/
def getWriter (strftimeNew : GoString → Bool) (filename : GoString) : Option RotateLogs :=
  let pattern := replaceAll (bytesOf ".log") [] 0 filename ++ bytesOf "_%Y%m%d%H.log"
  if strftimeNew pattern then
    some { pattern := pattern, linkName := filename, maxAge := Hour * 24 * 7,
           rotationTime := Hour }
  else none

/-- The two encoders `Init` builds: `zapcore.NewJSONEncoder(...)` and
`zapcore.NewConsoleEncoder(zap.NewDevelopmentEncoderConfig())`. -/
inductive Encoder where
  | json
  | console
  deriving DecidableEq, Repr

/-- The write syncers `Init` builds: `zapcore.Lock(os.Stdout)` and
`zapcore.AddSync(getWriter(...))`. -/
inductive WriteSyncer where
  | stdout
  | file (hook : RotateLogs)
  deriving DecidableEq, Repr

/-- The result of `zapcore.NewCore(enc, ws, enab)`. -/
structure Core where
  enc : Encoder
  ws : WriteSyncer
  enab : Level → Bool

/-- `Core.Check`: a core accepts an entry when its level enabler is enabled for
the entry's level. -/
def Core.accepts (core : Core) (lvl : Level) : Bool := core.enab lvl

/-- The file a core writes to: the name handed to `getWriter`, kept as the
link name of its rotating writer; `none` for a console core. -/
def Core.fileName (core : Core) : Option GoString :=
  match core.ws with
  | .stdout => none
  | .file hook => some hook.linkName

/-- `highPriority`: `lvl >= zapcore.ErrorLevel`. -/
def highPriority (lvl : Level) : Bool := decide (lvl ≥ ErrorLevel)

/-- `lowPriority`: `lvl >= zapcore.DebugLevel`. -/
def lowPriority (lvl : Level) : Bool := decide (lvl ≥ DebugLevel)

/-- `debugLevel`: `lvl >= zapcore.DebugLevel`. -/
def debugLevel (lvl : Level) : Bool := decide (lvl ≥ DebugLevel)

/-- `infoLevel`: `lvl >= zapcore.InfoLevel`. -/
def infoLevel (lvl : Level) : Bool := decide (lvl ≥ InfoLevel)

/-- `warnLevel`: `lvl >= zapcore.WarnLevel`. -/
def warnLevel (lvl : Level) : Bool := decide (lvl ≥ WarnLevel)

/-- `errorLevel`: `lvl >= zapcore.ErrorLevel`. -/
def errorLevel (lvl : Level) : Bool := decide (lvl ≥ ErrorLevel)

/-- `fatalLevel`: `lvl >= zapcore.FatalLevel`. -/
def fatalLevel (lvl : Level) : Bool := decide (lvl ≥ FatalLevel)

/-- The logger `zap.New(zapcore.NewTee(cores...), zap.AddCaller()).Sugar()`. -/
structure Logger where
  cores : List Core
  addCaller : Bool

/-- `func Init(c *Config)`: the value assigned to the package variable
`logger`, or `none` when a `getWriter` call panics. The `append`s run in source
order, so the first rejected pattern stops `Init`. -/
def Init (strftimeNew : GoString → Bool) (c : Config) : Option Logger := do
  let cores : List Core := []
  let cores := if c.Debug then cores ++ [⟨.console, .stdout, highPriority⟩] else cores
  let cores := cores ++ [⟨.console, .stdout, lowPriority⟩]
  let w ← getWriter strftimeNew (c.LogPath ++ c.AppName ++ bytesOf "_debug.log")
  let cores := cores ++ [⟨.json, .file w, debugLevel⟩]
  let w ← getWriter strftimeNew (c.LogPath ++ c.AppName ++ bytesOf "_info.log")
  let cores := cores ++ [⟨.json, .file w, infoLevel⟩]
  let w ← getWriter strftimeNew (c.LogPath ++ c.AppName ++ bytesOf "_warn.log")
  let cores := cores ++ [⟨.json, .file w, warnLevel⟩]
  let w ← getWriter strftimeNew (c.LogPath ++ c.AppName ++ bytesOf "_error.log")
  let cores := cores ++ [⟨.json, .file w, errorLevel⟩]
  let w ← getWriter strftimeNew (c.LogPath ++ c.AppName ++ bytesOf "_fatal.log")
  let cores := cores ++ [⟨.json, .file w, fatalLevel⟩]
  pure { cores := cores, addCaller := true }

/-- The five leveled files of `Init`: the end of the file name and the level
the name stands for. -/
def levelFiles : List (GoString × Level) :=
  [(bytesOf "_debug.log", DebugLevel), (bytesOf "_info.log", InfoLevel),
   (bytesOf "_warn.log", WarnLevel), (bytesOf "_error.log", ErrorLevel),
   (bytesOf "_fatal.log", FatalLevel)]

/-- A call of a leveled method of `*zap.SugaredLogger` on the package variable
`logger`: the level, the template (empty for `Debug`, `Info`, `Warn`, `Error`,
`Fatal`) and the arguments handed over. -/
structure SugarCall where
  lvl : Level
  template : GoString
  args : List GoValue
  deriving DecidableEq, Repr

/-- `func Debugf(msg string, args ...interface{})`: `logger.Debugf(msg, args...)`. -/
def Debugf (msg : GoString) (args : List GoValue) : SugarCall := ⟨DebugLevel, msg, args⟩

/-- `func Debug(args ...interface{})`: `logger.Debug(args...)`. -/
def Debug (args : List GoValue) : SugarCall := ⟨DebugLevel, [], args⟩

/-- `func Infof(msg string, args ...interface{})`: `logger.Infof(msg, args...)`. -/
def Infof (msg : GoString) (args : List GoValue) : SugarCall := ⟨InfoLevel, msg, args⟩

/-- `func Info(args ...interface{})`: `logger.Info(args...)`. -/
def Info (args : List GoValue) : SugarCall := ⟨InfoLevel, [], args⟩

/-- `func Errorf(msg string, args ...interface{})`: `logger.Errorf(msg, args...)`. -/
def Errorf (msg : GoString) (args : List GoValue) : SugarCall := ⟨ErrorLevel, msg, args⟩

/-- `func Error(args ...interface{})`: `logger.Error(args...)`. -/
def Error (args : List GoValue) : SugarCall := ⟨ErrorLevel, [], args⟩

/-- `func Warnf(msg string, args ...interface{})`: `logger.Warnf(msg, args...)`. -/
def Warnf (msg : GoString) (args : List GoValue) : SugarCall := ⟨WarnLevel, msg, args⟩

/-- `func Warn(msg string, args ...interface{})`: `logger.Warn(args...)`; the
body does not use `msg`. -/
def Warn (_msg : GoString) (args : List GoValue) : SugarCall := ⟨WarnLevel, [], args⟩

/-- `func Fatalf(msg string, args ...interface{})`: `logger.Fatalf(msg, args...)`. -/
def Fatalf (msg : GoString) (args : List GoValue) : SugarCall := ⟨FatalLevel, msg, args⟩

/-- `func Fatal(args ...interface{})`: `logger.Fatal(args...)`. -/
def Fatal (args : List GoValue) : SugarCall := ⟨FatalLevel, [], args⟩

/-- Whether the text `msg` is part of what a call hands to the logger: it is
the template, or one of the arguments is that string. -/
def SugarCall.carries (call : SugarCall) (msg : GoString) : Bool :=
  decide (call.template = msg) || call.args.contains (.string msg)

end log

namespace httpclient

open Go

/-- Modelled from the spec: `ClientConfig` (§3); the package source is absent,
the field names are those of the `Config` literal in `client_test.go`. `Dial`
is the dial timeout, `Timeout` the read timeout, `retryCount` the number of
additional attempts after the first failure. -/
structure Config where
  Dial : xtime.Duration
  Timeout : xtime.Duration
  KeepAlive : xtime.Duration
  BackoffInterval : xtime.Duration
  retryCount : Int
  deriving DecidableEq, Repr

/-- Modelled from the spec: the pooled transport of §4.1 Construction, absent
from the sources: TCP dial timeout, keep-alive probe interval, overall request
timeout, and connection pooling enabled. -/
structure Transport where
  dialTimeout : xtime.Duration
  keepAlive : xtime.Duration
  requestTimeout : xtime.Duration
  pooling : Bool
  deriving DecidableEq, Repr

/-- Modelled from the spec: `ResilientHTTPClient` (§3), absent from the
sources: the transport it owns, the backoff interval, and the mutable
`retryCount`. -/
structure HttpClient where
  transport : Transport
  backoffInterval : xtime.Duration
  retryCount : Int
  deriving DecidableEq, Repr

/-- Modelled from the spec: the transport-level failures of §7 (connection
refused, DNS failure, timeout, reset), absent from the sources. -/
inductive TransportFault where
  | connectionRefused
  | dnsFailure
  | timeout
  | reset
  deriving DecidableEq, Repr

/-- Modelled from the spec: the two ways a context ends (§7 CancellationError:
cancelled or deadline exceeded), absent from the sources. -/
inductive ContextError where
  | canceled
  | deadlineExceeded
  deriving DecidableEq, Repr

/-- Modelled from the spec: the error taxonomy of §7, absent from the sources. -/
inductive Error where
  | ConfigurationError
  | TransportError (fault : TransportFault)
  | CancellationError (cause : ContextError)
  | DecodeError (detail : GoString)
  deriving DecidableEq, Repr

/-- Modelled from the spec: `NewClient(cfg)` (§4.1 Construction), named
`NewHTTPClient` in `client_test.go` and absent from the sources. A negative
duration is an invalid configuration; no I/O occurs. -/
def NewHTTPClient (cfg : Config) : Except Error HttpClient :=
  if cfg.Dial < 0 ∨ cfg.Timeout < 0 ∨ cfg.KeepAlive < 0 ∨ cfg.BackoffInterval < 0 then
    .error .ConfigurationError
  else
    .ok { transport := { dialTimeout := cfg.Dial, keepAlive := cfg.KeepAlive,
                         requestTimeout := cfg.Timeout, pooling := true },
          backoffInterval := cfg.BackoffInterval,
          retryCount := cfg.retryCount }

/-- Modelled from the spec: `SetRetryCount(n int)` (§4.1), absent from the
sources: a single assignment to the client's retry budget. -/
def HttpClient.SetRetryCount (c : HttpClient) (n : Int) : HttpClient :=
  { c with retryCount := n }

/-- Modelled from the spec: the request `Get` / `Post` send (§4.1 Inputs, §6
Outbound), absent from the sources. -/
structure Request where
  method : GoString
  url : GoString
  contentType : Option GoString
  headers : List (GoString × GoString)
  body : Option GoString
  deriving DecidableEq, Repr

/-- Modelled from the spec: the outcome of one send (§4.1 Behavior 3 and 4),
absent from the sources: a response body, or a transport-level failure. -/
inductive SendOutcome where
  | response (body : GoString)
  | failure (fault : TransportFault)
  deriving DecidableEq, Repr

/-- Modelled from the spec: what lies outside the client during one call of
`Get` / `Post` (absent from the sources). `send tr req i` is the outcome of the
send attempt number `i` (from 0); `doneDuringSleep k` tells whether the
caller's context is cancelled or expired before the backoff sleep after attempt
`k` ends; `cause` is the context's error; `decode` decodes a response body as
JSON into the destination; `serialize` encodes a `Post` body by content type. -/
structure World (Value Payload : Type) where
  send : Transport → Request → Nat → SendOutcome
  doneDuringSleep : Nat → Bool
  cause : ContextError
  decode : GoString → Except GoString Value
  serialize : GoString → Payload → GoString

/-- Modelled from the spec: what a call of `Get` / `Post` leaves behind (absent
from the sources): the error returned (`none` for success), the value decoded
into `out` (`none` when `out` is not written), the number of send attempts and
of completed or interrupted backoff sleeps. -/
structure CallResult (Value : Type) where
  err : Option Error
  out : Option Value
  sends : Nat
  sleeps : Nat
  deriving DecidableEq, Repr

/-- Modelled from the spec: the state machine of §4.1 (absent from the sources),
entered at SEND for attempt number `attempt` with `remaining` retries left.
SEND: a response goes to DECODE, which ends the call with success or with the
decode error (no retry). A transport failure with no retry left ends the call
with that failure; with a retry left the client sleeps `backoffInterval`
(BACKOFF), and a context done during the sleep ends the call with the
cancellation error, else the next attempt is sent. -/
def retryLoop {Value Payload : Type} (w : World Value Payload) (tr : Transport)
    (req : Request) : Nat → Nat → CallResult Value
  | remaining, attempt =>
    match w.send tr req attempt with
    | .response body =>
      match w.decode body with
      | .ok v => { err := none, out := some v, sends := attempt + 1, sleeps := attempt }
      | .error e =>
        { err := some (.DecodeError e), out := none, sends := attempt + 1, sleeps := attempt }
    | .failure fault =>
      match remaining with
      | 0 =>
        { err := some (.TransportError fault), out := none, sends := attempt + 1,
          sleeps := attempt }
      | r + 1 =>
        if w.doneDuringSleep attempt then
          { err := some (.CancellationError w.cause), out := none, sends := attempt + 1,
            sleeps := attempt + 1 }
        else retryLoop w tr req r (attempt + 1)

/-- Modelled from the spec: `Get(ctx, url, headers, out)` (§4.1), absent from
the sources: send the request, retrying up to `retryCount` additional times. -/
def HttpClient.Get {Value Payload : Type} (c : HttpClient) (w : World Value Payload)
    (url : GoString) (headers : List (GoString × GoString)) : CallResult Value :=
  retryLoop w c.transport
    { method := bytesOf "GET", url := url, contentType := none, headers := headers,
      body := none }
    c.retryCount.toNat 0

/-- Modelled from the spec: `Post(ctx, url, contentType, headers, body, out)`
(§4.1), absent from the sources: serialize the body by content type, then as
`Get`. -/
def HttpClient.Post {Value Payload : Type} (c : HttpClient) (w : World Value Payload)
    (url contentType : GoString) (headers : List (GoString × GoString)) (body : Payload) :
    CallResult Value :=
  retryLoop w c.transport
    { method := bytesOf "POST", url := url, contentType := some contentType,
      headers := headers, body := some (w.serialize contentType body) }
    c.retryCount.toNat 0

/-- `MIMEJSON`, the content type `client_test.go` posts with. -/
def MIMEJSON : GoString := bytesOf "application/json"

/-- The `Config` literal of `client_test.go`: one second for each duration,
`retryCount: 10`. -/
def testConfig : Config :=
  { Dial := 1000000000, Timeout := 1000000000, KeepAlive := 1000000000,
    BackoffInterval := 1000000000, retryCount := 10 }

/-- The client `NewHTTPClient` builds from `testConfig`. -/
def testClient : HttpClient :=
  { transport := { dialTimeout := 1000000000, keepAlive := 1000000000,
                   requestTimeout := 1000000000, pooling := true },
    backoffInterval := 1000000000, retryCount := 10 }

/-- A world whose every send is refused; `done` says in which backoff sleeps
the context ends (by cancellation). -/
def refusingWorld (done : Nat → Bool) : World Unit Unit :=
  { send := fun _ _ _ => .failure .connectionRefused,
    doneDuringSleep := done,
    cause := .canceled,
    decode := fun _ => .ok (),
    serialize := fun _ _ => [] }

/-- A world whose every send gets the response body `<html>`, which does not
decode as JSON; the context never ends. -/
def garbledWorld : World Unit Unit :=
  { send := fun _ _ _ => .response (bytesOf "<html>"),
    doneDuringSleep := fun _ => false,
    cause := .canceled,
    decode := fun _ => .error (bytesOf "invalid character"),
    serialize := fun _ _ => [] }

end httpclient

/-! ## `util/xtime` -/

namespace xtime

open Go

theorem wrapInt64_of_isInt64 {x : Int} (h : IsInt64 x) : wrapInt64 x = x := by
  unfold IsInt64 minInt64 maxInt64 at h
  unfold wrapInt64
  omega

theorem wrapInt64_add_sub (t c : Int) (h : IsInt64 t) :
    wrapInt64 (wrapInt64 (t + c) + -c) = t := by
  unfold IsInt64 minInt64 maxInt64 at h
  unfold wrapInt64
  omega

/-- C5. For every text on which the duration parser reports no error,
`UnmarshalText` returns a nil error and sets the receiver to exactly the
duration the parser gives for that text, whatever the receiver held before. -/
theorem UnmarshalText_valid {E : Type} (parse : GoString → Int × Option E)
    (d : Duration) (text : List UInt8) (h : (parse text).2 = none) :
    Duration.UnmarshalTextWith parse d text = ((parse text).1, none) := by
  unfold Duration.UnmarshalTextWith
  rcases hp : parse text with ⟨tmp, err⟩
  rw [hp] at h
  simp only at h
  subst h
  rfl

/-- C5 at "500ms" and "1s" with `time.ParseDuration`: 500,000,000 and
1,000,000,000 nanoseconds, nil error. -/
theorem UnmarshalText_valid_witness :
    (time.ParseDuration (bytesOf "500ms")).2 = none ∧
    Duration.UnmarshalText 7 (bytesOf "500ms") = (500000000, none) ∧
    Duration.UnmarshalText 7 (bytesOf "1s") = (1000000000, none) :=
  ⟨by decide,
   UnmarshalText_valid time.ParseDuration 7 (bytesOf "500ms") (by decide),
   UnmarshalText_valid time.ParseDuration 7 (bytesOf "1s") (by decide)⟩

/-- C8. For every text the duration parser rejects, `UnmarshalText` returns
that non-nil error and leaves the receiver's value unchanged. -/
theorem UnmarshalText_invalid {E : Type} (parse : GoString → Int × Option E)
    (d : Duration) (text : List UInt8) (e : E) (h : (parse text).2 = some e) :
    Duration.UnmarshalTextWith parse d text = (d, some e) := by
  unfold Duration.UnmarshalTextWith
  rcases hp : parse text with ⟨tmp, err⟩
  rw [hp] at h
  simp only at h
  subst h
  rfl

/-- C8 at the text "5 minutes", which `time.ParseDuration` rejects with
"unknown unit": the receiver keeps 7. -/
theorem UnmarshalText_invalid_witness :
    (time.ParseDuration (bytesOf "5 minutes")).2 =
      some (.unknownUnit (bytesOf " minutes") (bytesOf "5 minutes")) ∧
    Duration.UnmarshalText 7 (bytesOf "5 minutes") =
      (7, some (.unknownUnit (bytesOf " minutes") (bytesOf "5 minutes"))) :=
  ⟨by decide,
   UnmarshalText_invalid time.ParseDuration 7 (bytesOf "5 minutes") _ (by decide)⟩

/-- C9. Round trip: for every `Time` value `t` (an `int64`) and every initial
receiver `r`, `Scan` applied to `t.Time()` returns a nil error and sets the
receiver to `t`; `t.Value()` returns the same time as `t.Time()` with a nil
error. -/
theorem Scan_Time_roundtrip (t r : Time) (h : IsInt64 t) :
    Time.Scan r (.time (Time.Time t)) = (t, none) ∧
    Time.Value t = (.time (Time.Time t), none) := by
  refine ⟨?_, rfl⟩
  have hsec : (time.Unix t 0).sec = wrapInt64 (t + time.unixToInternal) := by
    simp [time.Unix, time.unixTime, time.Time.sec, uint64OfInt64]
  simp only [Time.Scan, Time.Time, time.Time.Unix, hsec, time.internalToUnix]
  rw [wrapInt64_add_sub t _ h]

/-- C9 at the largest `int64`, where `sec + unixToInternal` wraps around. -/
theorem Scan_Time_roundtrip_witness :
    IsInt64 9223372036854775807 ∧
    Time.Scan 0 (.time (Time.Time 9223372036854775807)) = (9223372036854775807, none) ∧
    Time.Value 9223372036854775807 = (.time (Time.Time 9223372036854775807), none) :=
  ⟨by decide, Scan_Time_roundtrip 9223372036854775807 0 (by decide)⟩

end xtime

namespace xtime
open Go strconv

theorem digitVal_of_isDigit {c : UInt8} (h : isDigit c) :
    digitVal c.toNat = some (c.toNat - 48) := by
  unfold isDigit at h
  simp [digitVal, h]

theorem digitVal_of_not_isDigit {c : UInt8} (h : ¬ isDigit c) :
    digitVal c.toNat = none ∨ ∃ d, digitVal c.toNat = some d ∧ 10 ≤ d := by
  unfold isDigit at h
  unfold digitVal
  rw [if_neg h]
  by_cases hl : 97 ≤ lower c.toNat ∧ lower c.toNat ≤ 122
  · right
    exact ⟨_, if_pos hl, by omega⟩
  · left
    exact if_neg hl

theorem decimalValue_cons (n : Nat) (c : UInt8) (rest : GoString) :
    decimalValue n (c :: rest) = decimalValue (n * 10 + (c.toNat - 48)) rest := rfl

theorem parseUintLoop_cons (n : Nat) (c : UInt8) (rest : GoString) :
    parseUintLoop n (c :: rest) =
      match digitVal c.toNat with
      | none => (0, some .ErrSyntax)
      | some d =>
        if d ≥ 10 then (0, some .ErrSyntax)
        else if n ≥ maxUint64 / 10 + 1 then (maxUint64, some .ErrRange)
        else
          if wrapUint64 (wrapUint64 (n * 10) + d) < wrapUint64 (n * 10) ∨
              wrapUint64 (wrapUint64 (n * 10) + d) > maxUint64
          then (maxUint64, some .ErrRange)
          else parseUintLoop (wrapUint64 (wrapUint64 (n * 10) + d)) rest := rfl

theorem le_decimalValue (s : GoString) : ∀ n, n ≤ decimalValue n s := by
  induction s with
  | nil => intro n; exact Nat.le_refl n
  | cons c rest ih =>
    intro n
    have := ih (n * 10 + (c.toNat - 48))
    rw [decimalValue_cons]
    omega

theorem parseUintLoop_cases (s : GoString) : ∀ n, n ≤ maxUint64 →
    (parseUintLoop n s = (decimalValue n s, none) ∧
        (∀ c ∈ s, isDigit c) ∧ decimalValue n s ≤ maxUint64) ∨
    (parseUintLoop n s = (0, some .ErrSyntax) ∧ ¬ (∀ c ∈ s, isDigit c)) ∨
    (parseUintLoop n s = (maxUint64, some .ErrRange) ∧
        (¬ (∀ c ∈ s, isDigit c) ∨ maxUint64 < decimalValue n s)) := by
  induction s with
  | nil =>
    intro n hn
    left
    exact ⟨rfl, by simp, hn⟩
  | cons c rest ih =>
    intro n hn
    by_cases hd : isDigit c
    · have hv := digitVal_of_isDigit hd
      have hd' := hd
      unfold isDigit at hd'
      have hge := le_decimalValue rest (n * 10 + (c.toNat - 48))
      unfold maxUint64 at hn hge
      by_cases hcut : n ≥ maxUint64 / 10 + 1
      · right; right
        refine ⟨?_, Or.inr ?_⟩
        · rw [parseUintLoop_cons, hv]; simp only []
          rw [if_neg (by omega), if_pos hcut]
        · unfold maxUint64 at hcut ⊢
          rw [decimalValue_cons]
          omega
      · by_cases hw : n * 10 + (c.toNat - 48) ≤ maxUint64
        · have hrec : parseUintLoop n (c :: rest)
              = parseUintLoop (n * 10 + (c.toNat - 48)) rest := by
            rw [parseUintLoop_cons, hv]; simp only []
            rw [if_neg (by omega), if_neg hcut]
            unfold maxUint64 at hcut hw
            have h1 : wrapUint64 (n * 10) = n * 10 := by unfold wrapUint64; omega
            have h2 : wrapUint64 (n * 10 + (c.toNat - 48)) = n * 10 + (c.toNat - 48) := by
              unfold wrapUint64; omega
            simp only [h1, h2]
            rw [if_neg (by unfold maxUint64; omega)]
          rw [hrec]
          rw [decimalValue_cons]; simp only [List.forall_mem_cons]
          rcases ih _ hw with h | h | h
          · left; exact ⟨h.1, ⟨hd, h.2.1⟩, h.2.2⟩
          · right; left; exact ⟨h.1, fun hh => h.2 hh.2⟩
          · right; right
            refine ⟨h.1, ?_⟩
            rcases h.2 with h2 | h2
            · left; exact fun hh => h2 hh.2
            · right; exact h2
        · right; right
          refine ⟨?_, Or.inr ?_⟩
          · rw [parseUintLoop_cons, hv]; simp only []
            rw [if_neg (by omega), if_neg hcut]
            unfold maxUint64 at hcut hw
            have h1 : wrapUint64 (n * 10) = n * 10 := by unfold wrapUint64; omega
            have h2 : wrapUint64 (n * 10 + (c.toNat - 48)) < n * 10 := by
              unfold wrapUint64; omega
            simp only [h1]
            rw [if_pos (Or.inl h2)]
          · unfold maxUint64 at hw ⊢
            rw [decimalValue_cons]
            omega
    · right; left
      refine ⟨?_, fun hh => hd (hh c (List.mem_cons_self _ _))⟩
      rcases digitVal_of_not_isDigit hd with h | ⟨d, h, hge⟩
      · rw [parseUintLoop_cons, h]
      · rw [parseUintLoop_cons, h]; simp only []
        rw [if_pos hge]


theorem convertUnsigned_cases (neg : Bool) (ds : GoString) :
    (convertUnsigned neg ds
        = (if neg then -(decimalValue 0 ds : Int) else (decimalValue 0 ds : Int), none) ∧
      (ds ≠ [] ∧ (∀ c ∈ ds, isDigit c) ∧
        IsInt64 (if neg then -(decimalValue 0 ds : Int) else (decimalValue 0 ds : Int)))) ∨
    ((convertUnsigned neg ds = (0, some .ErrSyntax) ∨
      convertUnsigned neg ds = (if neg then minInt64 else maxInt64, some .ErrRange)) ∧
      ¬ (ds ≠ [] ∧ (∀ c ∈ ds, isDigit c) ∧
        IsInt64 (if neg then -(decimalValue 0 ds : Int) else (decimalValue 0 ds : Int)))) := by
  by_cases hnil : ds = []
  · subst hnil
    right
    refine ⟨Or.inl ?_, by simp⟩
    cases neg <;> rfl
  · have hPU : ParseUint ds = parseUintLoop 0 ds := by
      unfold ParseUint; rw [if_neg hnil]
    rcases parseUintLoop_cases ds 0 (by unfold maxUint64; omega) with h | h | h
    · obtain ⟨hr, hall, hle⟩ := h
      have hcu : convertUnsigned neg ds =
          if ¬ neg = true ∧ decimalValue 0 ds ≥ 9223372036854775808 then
            (int64OfUint64 (9223372036854775808 - 1), some .ErrRange)
          else if neg = true ∧ decimalValue 0 ds > 9223372036854775808 then
            (wrapInt64 (-(int64OfUint64 9223372036854775808)), some .ErrRange)
          else ((if neg = true then wrapInt64 (-(int64OfUint64 (decimalValue 0 ds)))
                  else int64OfUint64 (decimalValue 0 ds)), none) := by
        unfold convertUnsigned
        rw [hPU, hr]
        simp
      rw [hcu]
      unfold maxUint64 at hle
      cases neg
      · by_cases hb : decimalValue 0 ds ≥ 9223372036854775808
        · right
          refine ⟨Or.inr ?_, ?_⟩
          · simp [hb]; rfl
          · simp [IsInt64, maxInt64, minInt64]; omega
        · left
          refine ⟨?_, hnil, hall, ?_⟩
          · simp [hb, int64OfUint64, wrapInt64]; omega
          · simp [IsInt64, maxInt64, minInt64]; omega
      · by_cases hb : decimalValue 0 ds > 9223372036854775808
        · right
          refine ⟨Or.inr ?_, ?_⟩
          · simp [hb]; rfl
          · simp [IsInt64, maxInt64, minInt64]; omega
        · left
          refine ⟨?_, hnil, hall, ?_⟩
          · simp [hb, int64OfUint64, wrapInt64]; omega
          · simp [IsInt64, maxInt64, minInt64]; omega
    · obtain ⟨hr, hall⟩ := h
      right
      refine ⟨Or.inl ?_, fun hh => hall hh.2.1⟩
      unfold convertUnsigned
      rw [hPU, hr]
      simp
    · obtain ⟨hr, hbad⟩ := h
      right
      have hinv : ¬ (ds ≠ [] ∧ (∀ c ∈ ds, isDigit c) ∧
          IsInt64 (if neg then -(decimalValue 0 ds : Int) else (decimalValue 0 ds : Int))) := by
        rintro ⟨-, hall, hrange⟩
        rcases hbad with hb | hb
        · exact hb hall
        · unfold maxUint64 at hb
          unfold IsInt64 minInt64 maxInt64 at hrange
          cases neg <;> simp at hrange <;> omega
      refine ⟨Or.inr ?_, hinv⟩
      unfold convertUnsigned
      rw [hPU, hr]
      cases neg
      · simp [maxUint64]; rfl
      · simp [maxUint64]; rfl

theorem ParseInt_cases (s : GoString) :
    (ParseInt s = (signedValue s, none) ∧ IsDecimalInt64 s) ∨
    ((ParseInt s = (0, some .ErrSyntax) ∨
      ParseInt s = (if (splitSign s).1 then minInt64 else maxInt64, some .ErrRange)) ∧
      ¬ IsDecimalInt64 s) := by
  cases s with
  | nil =>
    right
    exact ⟨Or.inl rfl, by simp [IsDecimalInt64, splitSign]⟩
  | cons c0 tl =>
    by_cases h43 : c0.toNat = 43
    · have hs : splitSign (c0 :: tl) = (false, tl) := by simp [splitSign, h43]
      have hp : ParseInt (c0 :: tl) = convertUnsigned false tl := by simp [ParseInt, h43]
      have := convertUnsigned_cases false tl
      simpa [IsDecimalInt64, signedValue, hs, hp] using this
    · by_cases h45 : c0.toNat = 45
      · have hs : splitSign (c0 :: tl) = (true, tl) := by simp [splitSign, h43, h45]
        have hp : ParseInt (c0 :: tl) = convertUnsigned true tl := by simp [ParseInt, h45]
        have := convertUnsigned_cases true tl
        simpa [IsDecimalInt64, signedValue, hs, hp] using this
      · have hs : splitSign (c0 :: tl) = (false, c0 :: tl) := by simp [splitSign, h43, h45]
        have hp : ParseInt (c0 :: tl) = convertUnsigned false (c0 :: tl) := by
          simp [ParseInt, h43, h45]
        have := convertUnsigned_cases false (c0 :: tl)
        simpa [IsDecimalInt64, signedValue, hs, hp] using this

end xtime

namespace xtime
open Go strconv

theorem toNat_ofNat_digit (d : Nat) (h : d < 10) : (UInt8.ofNat (48 + d)).toNat = 48 + d := by
  show (48 + d) % 256 = 48 + d
  omega

theorem decimalValue_append (p q : GoString) :
    ∀ m, decimalValue m (p ++ q) = decimalValue (decimalValue m p) q := by
  induction p with
  | nil => intro m; rfl
  | cons c rest ih =>
    intro m
    rw [List.cons_append, decimalValue_cons, decimalValue_cons, ih]

theorem decimalDigits_spec : ∀ (fuel n : Nat) (acc : GoString), n < fuel →
    ∃ pre : GoString, decimalDigits fuel n acc = pre ++ acc ∧ pre ≠ [] ∧
      (∀ c ∈ pre, isDigit c) ∧ (∀ m, decimalValue m pre = m * 10 ^ pre.length + n) := by
  intro fuel
  induction fuel with
  | zero => intro n acc h; omega
  | succ fuel ih =>
    intro n acc hn
    have hb : (UInt8.ofNat (48 + n % 10)).toNat = 48 + n % 10 :=
      toNat_ofNat_digit _ (Nat.mod_lt _ (by omega))
    by_cases h0 : n / 10 = 0
    · refine ⟨[UInt8.ofNat (48 + n % 10)], ?_, by simp, ?_, ?_⟩
      · show (if n / 10 = 0 then _ else _) = _
        rw [if_pos h0]; rfl
      · intro c hc
        rw [List.mem_singleton] at hc
        subst hc
        unfold isDigit
        omega
      · intro m
        rw [decimalValue_cons, hb]
        show m * 10 + (48 + n % 10 - 48) = m * 10 ^ 1 + n
        omega
    · obtain ⟨pre, hpre, -, hall, hval⟩ :=
        ih (n / 10) (UInt8.ofNat (48 + n % 10) :: acc) (by omega)
      refine ⟨pre ++ [UInt8.ofNat (48 + n % 10)], ?_, by simp, ?_, ?_⟩
      · show (if n / 10 = 0 then _ else _) = _
        rw [if_neg h0, hpre]
        simp
      · intro c hc
        rw [List.mem_append, List.mem_singleton] at hc
        rcases hc with hc | hc
        · exact hall c hc
        · subst hc
          unfold isDigit
          omega
      · intro m
        rw [decimalValue_append, hval, decimalValue_cons, hb]
        show (m * 10 ^ pre.length + n / 10) * 10 + (48 + n % 10 - 48) = _
        rw [List.length_append, List.length_singleton, pow_succ]
        rw [← Nat.mul_assoc]
        omega

theorem splitSign_of_digits (p : GoString) (hall : ∀ c ∈ p, isDigit c) :
    splitSign p = (false, p) := by
  cases p with
  | nil => rfl
  | cons c rest =>
    have hc := hall c (List.mem_cons_self _ _)
    unfold isDigit at hc
    show (if c.toNat = 43 then _ else if c.toNat = 45 then _ else _) = _
    rw [if_neg (by omega), if_neg (by omega)]

theorem decimalForm_spec (v : Int) (h : IsInt64 v) :
    IsDecimalInt64 (decimalForm v) ∧ signedValue (decimalForm v) = v := by
  obtain ⟨pre, hpre, hne, hall, hval⟩ :=
    decimalDigits_spec (v.natAbs + 1) v.natAbs [] (Nat.lt_succ_self _)
  rw [List.append_nil] at hpre
  have hv0 : decimalValue 0 pre = v.natAbs := by rw [hval]; omega
  by_cases hneg : v < 0
  · have hform : decimalForm v = 45 :: pre := by
      unfold decimalForm; rw [if_pos hneg, hpre]
    have hs : splitSign (45 :: pre) = (true, pre) := rfl
    have hsv : signedValue (decimalForm v) = v := by
      rw [hform]; unfold signedValue; rw [hs]; simp only [if_true, hv0]; omega
    refine ⟨⟨?_, ?_, ?_⟩, hsv⟩
    · rw [hform, hs]; exact hne
    · rw [hform, hs]; exact hall
    · rw [hsv]; exact h
  · have hform : decimalForm v = pre := by
      unfold decimalForm; rw [if_neg hneg, hpre]
    have hs : splitSign pre = (false, pre) := splitSign_of_digits pre hall
    have hsv : signedValue (decimalForm v) = v := by
      rw [hform]; unfold signedValue; rw [hs]; simp only [hv0]; simp; omega
    refine ⟨⟨?_, ?_, ?_⟩, hsv⟩
    · rw [hform, hs]; exact hne
    · rw [hform, hs]; exact hall
    · rw [hsv]; exact h

/-- C10. `Time.Scan(i)` returns a non-nil error exactly when `i` is a string
that is not a valid base-10 signed 64-bit integer; the receiver is then still
overwritten with the result of `ParseInt`: 0 on a syntax error, the clamped
extreme on out-of-range (the smallest `int64` after a leading `-`, else the
largest). For a string holding the decimal form of an `int64` `v` the receiver
becomes `v` with a nil error, and for a value that is neither a `time.Time` nor
a string the call returns nil and leaves the receiver unchanged. -/
theorem Scan_error_iff (t : Time) (i : GoValue) :
    ((Time.Scan t i).2 ≠ none ↔ ∃ s, i = .string s ∧ ¬ IsDecimalInt64 s) ∧
    (∀ s, i = .string s → ¬ IsDecimalInt64 s →
      (Time.Scan t i).1 = (ParseInt s).1 ∧
      (Time.Scan t i = (0, some .ErrSyntax) ∨
        Time.Scan t i = (if (splitSign s).1 then minInt64 else maxInt64, some .ErrRange))) ∧
    (∀ s, i = .string s → IsDecimalInt64 s → Time.Scan t i = (signedValue s, none)) ∧
    (∀ v, IsInt64 v → i = .string (decimalForm v) → Time.Scan t i = (v, none)) ∧
    ((∀ s, i ≠ .string s) → (∀ tm, i ≠ .time tm) → Time.Scan t i = (t, none)) := by
  have hstr : ∀ s, Time.Scan t (.string s) = ParseInt s := fun s => rfl
  refine ⟨?_, ?_, ?_, ?_, ?_⟩
  · constructor
    · intro herr
      cases i with
      | string s =>
        refine ⟨s, rfl, fun hvalid => herr ?_⟩
        rcases ParseInt_cases s with h | h
        · rw [hstr, h.1]
        · exact absurd hvalid h.2
      | nil => exact absurd rfl herr
      | int64 v => exact absurd rfl herr
      | float64 b => exact absurd rfl herr
      | bool b => exact absurd rfl herr
      | bytes b => exact absurd rfl herr
      | time tm => exact absurd rfl herr
    · rintro ⟨s, rfl, hinv⟩
      rw [hstr]
      rcases ParseInt_cases s with h | h
      · exact absurd h.2 hinv
      · rcases h.1 with h1 | h1 <;> rw [h1] <;> simp
  · rintro s rfl hinv
    refine ⟨by rw [hstr], ?_⟩
    rw [hstr]
    rcases ParseInt_cases s with h | h
    · exact absurd h.2 hinv
    · exact h.1
  · rintro s rfl hvalid
    rw [hstr]
    rcases ParseInt_cases s with h | h
    · exact h.1
    · exact absurd hvalid h.2
  · rintro v hv rfl
    rw [hstr]
    have hd := decimalForm_spec v hv
    rcases ParseInt_cases (decimalForm v) with h | h
    · rw [h.1, hd.2]
    · exact absurd hd.1 h.2
  · intro hs ht
    cases i with
    | string s => exact absurd rfl (hs s)
    | time tm => exact absurd rfl (ht tm)
    | nil => rfl
    | int64 v => rfl
    | float64 b => rfl
    | bool b => rfl
    | bytes b => rfl

/-- C10 at concrete inputs: a text with a stray letter (syntax error, receiver
0), a text one below the smallest `int64` (range error, receiver clamped), the
decimal form of the smallest `int64`, and a `[]byte` value (ignored). -/
theorem Scan_error_iff_witness :
    Time.Scan 7 (.string (bytesOf "12a")) = (0, some .ErrSyntax) ∧
    Time.Scan 7 (.string (bytesOf "-9223372036854775809"))
      = (-9223372036854775808, some .ErrRange) ∧
    Time.Scan 7 (.string (bytesOf "-9223372036854775808")) = (-9223372036854775808, none) ∧
    Time.Scan 7 (.bytes [49, 50]) = (7, none) := by
  refine ⟨?_, ?_, ?_, ?_⟩
  · have h := (Scan_error_iff 7 (.string (bytesOf "12a"))).2.1 _ rfl (by decide)
    rcases h.2 with h2 | h2
    · exact h2
    · exact absurd h2 (by decide)
  · have h := (Scan_error_iff 7 (.string (bytesOf "-9223372036854775809"))).2.1 _ rfl
      (by decide)
    rcases h.2 with h2 | h2
    · exact absurd h2 (by decide)
    · exact h2
  · exact (Scan_error_iff 7 (.string (decimalForm (-9223372036854775808)))).2.2.2.1
      (-9223372036854775808) (by decide) rfl
  · exact (Scan_error_iff 7 (.bytes [49, 50])).2.2.2.2 (by intro s; simp) (by intro s; simp)

end xtime

namespace time
open Go

theorem leadingInt_cons (x : Nat) (c : UInt8) (rest : GoString) :
    leadingInt x (c :: rest) =
      if c.toNat < 48 ∨ c.toNat > 57 then some (x, c :: rest)
      else if x > 9223372036854775808 / 10 then none
      else
        if wrapUint64 (wrapUint64 (x * 10) + c.toNat - 48) > 9223372036854775808 then none
        else leadingInt (wrapUint64 (wrapUint64 (x * 10) + c.toNat - 48)) rest := rfl

theorem leadingInt_length (s : GoString) : ∀ (x v : Nat) (s1 : GoString),
    leadingInt x s = some (v, s1) → s1.length ≤ s.length := by
  induction s with
  | nil =>
    intro x v s1 h
    have h2 : some (x, ([] : GoString)) = some (v, s1) := h
    simp only [Option.some.injEq, Prod.mk.injEq] at h2
    rw [← h2.2]
  | cons c rest ih =>
    intro x v s1 h
    rw [leadingInt_cons] at h
    split at h
    · simp only [Option.some.injEq, Prod.mk.injEq] at h
      rw [← h.2]
    · split at h
      · exact absurd h (by simp)
      · split at h
        · exact absurd h (by simp)
        · have := ih _ _ _ h
          simp only [List.length_cons]
          omega

theorem leadingFraction_cons (x scale : Nat) (o : Bool) (c : UInt8) (rest : GoString) :
    leadingFraction x scale o (c :: rest) =
      if c.toNat < 48 ∨ c.toNat > 57 then (x, scale, c :: rest)
      else if o then leadingFraction x scale o rest
      else if x > (9223372036854775808 - 1) / 10 then leadingFraction x scale true rest
      else
        if wrapUint64 (wrapUint64 (x * 10) + c.toNat - 48) > 9223372036854775808
        then leadingFraction x scale true rest
        else leadingFraction (wrapUint64 (wrapUint64 (x * 10) + c.toNat - 48))
          (scale * 10) o rest := rfl

theorem leadingFraction_length (s : GoString) : ∀ (x scale : Nat) (o : Bool),
    (leadingFraction x scale o s).2.2.length ≤ s.length := by
  induction s with
  | nil => intro x scale o; exact Nat.le_refl _
  | cons c rest ih =>
    intro x scale o
    rw [leadingFraction_cons]
    simp only [List.length_cons]
    split
    · exact Nat.le_refl _
    · split
      · exact Nat.le_succ_of_le (ih _ _ _)
      · split
        · exact Nat.le_succ_of_le (ih _ _ _)
        · split
          · exact Nat.le_succ_of_le (ih _ _ _)
          · exact Nat.le_succ_of_le (ih _ _ _)

theorem unitSpan_cons (c : UInt8) (rest : GoString) :
    unitSpan (c :: rest) =
      if c.toNat = 46 ∨ (48 ≤ c.toNat ∧ c.toNat ≤ 57) then ([], c :: rest)
      else (c :: (unitSpan rest).1, (unitSpan rest).2) := rfl

theorem unitSpan_length (s : GoString) :
    (unitSpan s).1.length + (unitSpan s).2.length = s.length := by
  induction s with
  | nil => rfl
  | cons c rest ih =>
    rw [unitSpan_cons]
    split
    · simp
    · simp only [List.length_cons]
      omega

end time

namespace time
open Go

theorem consumeFraction_length (s : GoString) :
    (consumeFraction s).2.2.2.length ≤ s.length := by
  unfold consumeFraction
  split
  · rename_i s1
    have := leadingFraction_length s1 0 1 false
    show (leadingFraction 0 1 false s1).2.2.length ≤ s1.length + 1
    omega
  · exact Nat.le_refl _

theorem parseDurationStep_length (orig : GoString) (c : UInt8) (rest : GoString) (d : Nat)
    (s1 : GoString) (d1 : Nat) (h : parseDurationStep orig c rest d = .ok (s1, d1)) :
    s1.length ≤ rest.length := by
  unfold parseDurationStep at h
  simp only at h
  split at h
  · exact absurd h (by simp)
  · split at h
    · exact absurd h (by simp)
    · rename_i v s2 hli
      have hl2 := leadingInt_length _ _ _ _ hli
      have hl3 := consumeFraction_length s2
      have hl4 := unitSpan_length (consumeFraction s2).2.2.2
      generalize consumeFraction s2 = fr at h hl3 hl4
      obtain ⟨f, scale, post, s3⟩ := fr
      simp only at h hl3 hl4
      generalize unitSpan s3 = us at h hl4
      obtain ⟨u, s4⟩ := us
      simp only at h hl4
      split at h
      · exact absurd h (by simp)
      · split at h
        · exact absurd h (by simp)
        · rename_i hu
          have hupos : 0 < u.length := List.length_pos.mpr hu
          simp only [List.length_cons] at hl2
          split at h
          · exact absurd h (by simp)
          · split_ifs at h <;>
              simp only [Except.ok.injEq, Prod.mk.injEq] at h <;>
              (rw [← h.1]; omega)

theorem parseDurationLoop_nil (orig : GoString) (fuel d : Nat) :
    parseDurationLoop orig fuel [] d = .ok d := by
  cases fuel <;> rfl

theorem parseDurationLoop_succ (orig : GoString) (fuel : Nat) (c : UInt8) (rest : GoString)
    (d : Nat) :
    parseDurationLoop orig (fuel + 1) (c :: rest) d =
      match parseDurationStep orig c rest d with
      | .error e => .error e
      | .ok (s, d) => parseDurationLoop orig fuel s d := rfl

/-- The fuel of `parseDurationLoop` never runs out from `len(s)`: any larger
fuel gives the same result, so the out-of-fuel branch is not reached by
`ParseDuration`. -/
theorem parseDurationLoop_fuel (orig : GoString) : ∀ (fuel : Nat) (s : GoString) (d k : Nat),
    s.length ≤ fuel →
    parseDurationLoop orig (fuel + k) s d = parseDurationLoop orig fuel s d := by
  intro fuel
  induction fuel with
  | zero =>
    intro s d k hs
    have : s = [] := List.length_eq_zero.mp (Nat.le_zero.mp hs)
    subst this
    rw [parseDurationLoop_nil, parseDurationLoop_nil]
  | succ fuel ih =>
    intro s d k hs
    cases s with
    | nil => rw [parseDurationLoop_nil, parseDurationLoop_nil]
    | cons c rest =>
      rw [show fuel + 1 + k = (fuel + k) + 1 by omega, parseDurationLoop_succ,
        parseDurationLoop_succ]
      cases hstep : parseDurationStep orig c rest d with
      | error e => rfl
      | ok p =>
        obtain ⟨s1, d1⟩ := p
        have hlen := parseDurationStep_length orig c rest d s1 d1 hstep
        simp only [List.length_cons] at hs
        exact ih s1 d1 k (by omega)

end time

/-! ## `log` -/

namespace log

open Go zapcore

theorem getWriter_linkName (strftimeNew : GoString → Bool) (f : GoString) (w : RotateLogs)
    (h : getWriter strftimeNew f = some w) : w.linkName = f := by
  unfold getWriter at h
  simp only at h
  split at h
  · simp only [Option.some.injEq] at h
    rw [← h]
  · exact absurd h (by simp)

theorem Init_eq (strftimeNew : GoString → Bool) (c : Config) (lg : Logger)
    (h : Init strftimeNew c = some lg) :
    ∃ w1 w2 w3 w4 w5 : RotateLogs,
      getWriter strftimeNew (c.LogPath ++ c.AppName ++ bytesOf "_debug.log") = some w1 ∧
      getWriter strftimeNew (c.LogPath ++ c.AppName ++ bytesOf "_info.log") = some w2 ∧
      getWriter strftimeNew (c.LogPath ++ c.AppName ++ bytesOf "_warn.log") = some w3 ∧
      getWriter strftimeNew (c.LogPath ++ c.AppName ++ bytesOf "_error.log") = some w4 ∧
      getWriter strftimeNew (c.LogPath ++ c.AppName ++ bytesOf "_fatal.log") = some w5 ∧
      lg.cores = (if c.Debug then [(⟨.console, .stdout, highPriority⟩ : Core)] else []) ++
        [⟨.console, .stdout, lowPriority⟩, ⟨.json, .file w1, debugLevel⟩,
         ⟨.json, .file w2, infoLevel⟩, ⟨.json, .file w3, warnLevel⟩,
         ⟨.json, .file w4, errorLevel⟩, ⟨.json, .file w5, fatalLevel⟩] := by
  unfold Init at h
  cases h1 : getWriter strftimeNew (c.LogPath ++ c.AppName ++ bytesOf "_debug.log") with
  | none => rw [h1] at h; exact absurd h (by simp)
  | some w1 =>
  cases h2 : getWriter strftimeNew (c.LogPath ++ c.AppName ++ bytesOf "_info.log") with
  | none => rw [h1, h2] at h; exact absurd h (by simp)
  | some w2 =>
  cases h3 : getWriter strftimeNew (c.LogPath ++ c.AppName ++ bytesOf "_warn.log") with
  | none => rw [h1, h2, h3] at h; exact absurd h (by simp)
  | some w3 =>
  cases h4 : getWriter strftimeNew (c.LogPath ++ c.AppName ++ bytesOf "_error.log") with
  | none => rw [h1, h2, h3, h4] at h; exact absurd h (by simp)
  | some w4 =>
  cases h5 : getWriter strftimeNew (c.LogPath ++ c.AppName ++ bytesOf "_fatal.log") with
  | none => rw [h1, h2, h3, h4, h5] at h; exact absurd h (by simp)
  | some w5 =>
  rw [h1, h2, h3, h4, h5] at h
  simp only [Option.bind_eq_bind, Option.some_bind, Option.pure_def, Option.some.injEq] at h
  refine ⟨w1, w2, w3, w4, w5, rfl, rfl, rfl, rfl, rfl, ?_⟩
  rw [← h]
  cases c.Debug <;> simp

theorem suffix_ne (p a b : GoString) (h : a ≠ b) : p ++ a ≠ p ++ b :=
  fun e => h (List.append_cancel_left e)

/-- C7. After `Init(c)` has returned, for every level `lvl` and each of the
five leveled files (`c.LogPath + c.AppName + "_X.log"` for X in debug, info,
warn, error, fatal) there is a core writing to that file, and a core writing to
it accepts an entry at `lvl` exactly when `lvl >= X`; the logger combines 7
cores when `c.Debug` is set and 6 otherwise, the extra one being a console core
in front that accepts exactly the levels `>= error`. -/
theorem Init_cores (strftimeNew : GoString → Bool) (c : Config) (lg : Logger)
    (h : Init strftimeNew c = some lg) :
    (∀ lvl : Level, ∀ p ∈ levelFiles,
      (∃ core ∈ lg.cores, core.fileName = some (c.LogPath ++ c.AppName ++ p.1)) ∧
      (∀ core ∈ lg.cores, core.fileName = some (c.LogPath ++ c.AppName ++ p.1) →
        (core.accepts lvl = true ↔ lvl ≥ p.2))) ∧
    lg.cores.length = (if c.Debug then 7 else 6) ∧
    (c.Debug = true →
      ∃ (extra : Core) (lg0 : Logger),
        Init strftimeNew { c with Debug := false } = some lg0 ∧
        lg.cores = extra :: lg0.cores ∧ lg0.cores.length = 6 ∧
        extra.enc = .console ∧ extra.ws = .stdout ∧
        ∀ lvl : Level, extra.accepts lvl = true ↔ lvl ≥ ErrorLevel) := by
  obtain ⟨w1, w2, w3, w4, w5, h1, h2, h3, h4, h5, hc⟩ := Init_eq strftimeNew c lg h
  have l1 := getWriter_linkName _ _ _ h1
  have l2 := getWriter_linkName _ _ _ h2
  have l3 := getWriter_linkName _ _ _ h3
  have l4 := getWriter_linkName _ _ _ h4
  have l5 := getWriter_linkName _ _ _ h5
  have hmem : ∀ core ∈ lg.cores,
      core.fileName = none ∨
      (core.fileName = some (c.LogPath ++ c.AppName ++ bytesOf "_debug.log") ∧
        core.enab = debugLevel) ∨
      (core.fileName = some (c.LogPath ++ c.AppName ++ bytesOf "_info.log") ∧
        core.enab = infoLevel) ∨
      (core.fileName = some (c.LogPath ++ c.AppName ++ bytesOf "_warn.log") ∧
        core.enab = warnLevel) ∨
      (core.fileName = some (c.LogPath ++ c.AppName ++ bytesOf "_error.log") ∧
        core.enab = errorLevel) ∨
      (core.fileName = some (c.LogPath ++ c.AppName ++ bytesOf "_fatal.log") ∧
        core.enab = fatalLevel) := by
    intro core hin
    rw [hc] at hin
    have hin2 : core = ⟨.console, .stdout, highPriority⟩ ∨
        core ∈ [(⟨.console, .stdout, lowPriority⟩ : Core), ⟨.json, .file w1, debugLevel⟩,
          ⟨.json, .file w2, infoLevel⟩, ⟨.json, .file w3, warnLevel⟩,
          ⟨.json, .file w4, errorLevel⟩, ⟨.json, .file w5, fatalLevel⟩] := by
      cases hD : c.Debug
      · rw [hD] at hin; right; simpa using hin
      · rw [hD] at hin
        simp only [if_true, List.singleton_append, List.mem_cons] at hin
        rcases hin with hin | hin
        · left; exact hin
        · right; simpa using hin
    rcases hin2 with e | hin2
    · left; rw [e]; rfl
    · simp only [List.mem_cons, List.mem_singleton, List.not_mem_nil, or_false] at hin2
      rcases hin2 with e | e | e | e | e | e
      · left; rw [e]; rfl
      · right; left; rw [e]; exact ⟨by simp [Core.fileName, l1], rfl⟩
      · right; right; left; rw [e]; exact ⟨by simp [Core.fileName, l2], rfl⟩
      · right; right; right; left; rw [e]; exact ⟨by simp [Core.fileName, l3], rfl⟩
      · right; right; right; right; left; rw [e]; exact ⟨by simp [Core.fileName, l4], rfl⟩
      · right; right; right; right; right; rw [e]; exact ⟨by simp [Core.fileName, l5], rfl⟩
  have hex : ∀ p ∈ levelFiles,
      ∃ core ∈ lg.cores, core.fileName = some (c.LogPath ++ c.AppName ++ p.1) := by
    intro p hp
    simp only [levelFiles, List.mem_cons, List.mem_singleton, List.not_mem_nil, or_false] at hp
    rcases hp with e | e | e | e | e <;> subst e
    · exact ⟨⟨.json, .file w1, debugLevel⟩, by rw [hc]; simp, by simp [Core.fileName, l1]⟩
    · exact ⟨⟨.json, .file w2, infoLevel⟩, by rw [hc]; simp, by simp [Core.fileName, l2]⟩
    · exact ⟨⟨.json, .file w3, warnLevel⟩, by rw [hc]; simp, by simp [Core.fileName, l3]⟩
    · exact ⟨⟨.json, .file w4, errorLevel⟩, by rw [hc]; simp, by simp [Core.fileName, l4]⟩
    · exact ⟨⟨.json, .file w5, fatalLevel⟩, by rw [hc]; simp, by simp [Core.fileName, l5]⟩
  refine ⟨fun lvl p hp => ⟨hex p hp, ?_⟩, ?_, ?_⟩
  · intro core hin hfile
    simp only [levelFiles, List.mem_cons, List.mem_singleton, List.not_mem_nil, or_false] at hp
    have key : ∀ (a b : GoString), a ≠ b →
        core.fileName = some (c.LogPath ++ c.AppName ++ a) →
        core.fileName = some (c.LogPath ++ c.AppName ++ b) → False := by
      intro a b hab ha hb
      rw [ha] at hb
      exact suffix_ne _ a b hab (Option.some.inj hb)
    rcases hmem core hin with hn | ⟨hf, he⟩ | ⟨hf, he⟩ | ⟨hf, he⟩ | ⟨hf, he⟩ | ⟨hf, he⟩
    · rw [hn] at hfile; exact absurd hfile (by simp)
    all_goals
      rcases hp with e | e | e | e | e <;> subst e <;>
      first
        | exact absurd hfile (fun hh => key _ _ (by decide) hf hh)
        | (simp only [Core.accepts, he, debugLevel, infoLevel, warnLevel, errorLevel,
            fatalLevel, decide_eq_true_eq])
  · rw [hc]
    cases c.Debug <;> rfl
  · intro hD
    have h0 : Init strftimeNew { c with Debug := false } =
        some ⟨[⟨.console, .stdout, lowPriority⟩, ⟨.json, .file w1, debugLevel⟩,
          ⟨.json, .file w2, infoLevel⟩, ⟨.json, .file w3, warnLevel⟩,
          ⟨.json, .file w4, errorLevel⟩, ⟨.json, .file w5, fatalLevel⟩], true⟩ := by
      unfold Init
      simp only [h1, h2, h3, h4, h5]
      rfl
    refine ⟨⟨.console, .stdout, highPriority⟩, _, h0, ?_, rfl, rfl, rfl, ?_⟩
    · rw [hc, hD]; rfl
    · intro lvl
      simp only [Core.accepts, highPriority, decide_eq_true_eq]

/-- C7 at the configuration `LogPath = "/tmp/"`, `AppName = "app"`, `Debug`
set, with a strftime library that compiles every pattern. -/
theorem Init_cores_witness :
    ∃ lg, Init (fun _ => true) ⟨bytesOf "/tmp/", bytesOf "app", true⟩ = some lg ∧
      lg.cores.length = 7 ∧
      (∀ core ∈ lg.cores, core.fileName = some (bytesOf "/tmp/app_warn.log") →
        (core.accepts InfoLevel = false ∧ core.accepts ErrorLevel = true)) := by
  refine ⟨_, rfl, ?_⟩
  have h := Init_cores (fun _ => true) ⟨bytesOf "/tmp/", bytesOf "app", true⟩ _ rfl
  refine ⟨h.2.1, fun core hin hf => ?_⟩
  have hi := (h.1 InfoLevel (bytesOf "_warn.log", WarnLevel) (by decide)).2 core hin hf
  have he := (h.1 ErrorLevel (bytesOf "_warn.log", WarnLevel) (by decide)).2 core hin hf
  constructor
  · cases hv : core.accepts InfoLevel
    · rfl
    · exact absurd (hi.mp hv) (by decide)
  · exact he.mpr (by decide)

/-- C6 on the code: `Warn(msg, args...)` hands only `args` to the logger, so
the message is lost. `Warn("disk full")` logs an empty warn entry, which does
not carry the text, while `Warnf("disk full")` carries it; and any two messages
give the same call. -/
theorem Warn_drops_msg :
    Warn (bytesOf "disk full") [] = ⟨WarnLevel, [], []⟩ ∧
    (Warn (bytesOf "disk full") []).carries (bytesOf "disk full") = false ∧
    (Warnf (bytesOf "disk full") []).carries (bytesOf "disk full") = true ∧
    (∀ (msg other : GoString) (args : List GoValue), Warn msg args = Warn other args) :=
  ⟨rfl, by decide, by decide, fun _ _ _ => rfl⟩

end log

/-! ## `transport/httpclient` -/

namespace httpclient

open Go

theorem retryLoop_eq {Value Payload : Type} (w : World Value Payload) (tr : Transport)
    (req : Request) (remaining attempt : Nat) :
    retryLoop w tr req remaining attempt =
      match w.send tr req attempt with
      | .response body =>
        match w.decode body with
        | .ok v => { err := none, out := some v, sends := attempt + 1, sleeps := attempt }
        | .error e =>
          { err := some (.DecodeError e), out := none, sends := attempt + 1,
            sleeps := attempt }
      | .failure fault =>
        match remaining with
        | 0 =>
          { err := some (.TransportError fault), out := none, sends := attempt + 1,
            sleeps := attempt }
        | r + 1 =>
          if w.doneDuringSleep attempt then
            { err := some (.CancellationError w.cause), out := none, sends := attempt + 1,
              sleeps := attempt + 1 }
          else retryLoop w tr req r (attempt + 1) := by
  conv_lhs => unfold retryLoop

/-- With every send failing and the context live through the backoff sleeps,
the loop sends once per retry left plus once, and ends with the failure of the
last attempt. -/
theorem retryLoop_exhaust {Value Payload : Type} (w : World Value Payload) (tr : Transport)
    (req : Request) : ∀ (r a : Nat),
    (∀ i, ∃ f, w.send tr req i = .failure f) →
    (∀ k, a ≤ k → k < a + r → w.doneDuringSleep k = false) →
    ∃ f, w.send tr req (a + r) = .failure f ∧
      retryLoop w tr req r a =
        { err := some (.TransportError f), out := none, sends := a + r + 1,
          sleeps := a + r } := by
  intro r
  induction r with
  | zero =>
    intro a hfail _
    obtain ⟨f, hf⟩ := hfail a
    refine ⟨f, hf, ?_⟩
    rw [retryLoop_eq, hf]
    rfl
  | succ r ih =>
    intro a hfail hlive
    obtain ⟨f, hf⟩ := hfail a
    obtain ⟨g, hg, hloop⟩ := ih (a + 1) hfail (fun k h1 h2 => hlive k (by omega) (by omega))
    have e : a + 1 + r = a + (r + 1) := by omega
    rw [e] at hg hloop
    refine ⟨g, hg, ?_⟩
    rw [retryLoop_eq, hf]
    simp only [hlive a (Nat.le_refl a) (by omega)]
    exact hloop

/-- C1 (amended). For every retry budget `n >= 0` of the client, a `Get` or
`Post` whose transport fails on every send and whose context is not done
during any of the first `n` backoff sleeps performs exactly `n + 1` send
attempts and returns the transport error of the last attempt (attempt number
`n`, counting from 0). -/
theorem Get_Post_exhaust {Value Payload : Type} (w : World Value Payload) (c : HttpClient)
    (n : Nat) (url contentType : GoString) (headers : List (GoString × GoString))
    (body : Payload)
    (hc : c.retryCount = (n : Int))
    (hfail : ∀ tr req i, ∃ f, w.send tr req i = .failure f)
    (hlive : ∀ k, k < n → w.doneDuringSleep k = false) :
    (∃ f,
      w.send c.transport
        { method := bytesOf "GET", url := url, contentType := none, headers := headers,
          body := none } n = .failure f ∧
      c.Get w url headers =
        { err := some (.TransportError f), out := none, sends := n + 1, sleeps := n }) ∧
    (∃ f,
      w.send c.transport
        { method := bytesOf "POST", url := url, contentType := some contentType,
          headers := headers, body := some (w.serialize contentType body) } n = .failure f ∧
      c.Post w url contentType headers body =
        { err := some (.TransportError f), out := none, sends := n + 1, sleeps := n }) := by
  have hbudget : c.retryCount.toNat = n := by rw [hc]; simp
  constructor
  · obtain ⟨f, hf, hloop⟩ := retryLoop_exhaust w c.transport
      { method := bytesOf "GET", url := url, contentType := none, headers := headers,
        body := none } n 0 (hfail _ _) (fun k _ h2 => hlive k (by omega))
    rw [Nat.zero_add] at hf hloop
    exact ⟨f, hf, by unfold HttpClient.Get; rw [hbudget]; exact hloop⟩
  · obtain ⟨f, hf, hloop⟩ := retryLoop_exhaust w c.transport
      { method := bytesOf "POST", url := url, contentType := some contentType,
        headers := headers, body := some (w.serialize contentType body) } n 0 (hfail _ _)
      (fun k _ h2 => hlive k (by omega))
    rw [Nat.zero_add] at hf hloop
    exact ⟨f, hf, by unfold HttpClient.Post; rw [hbudget]; exact hloop⟩

/-- C1 (amended) at the test client with `SetRetryCount(2)`, every send
refused and a context that never ends: three sends, then the refusal. -/
theorem Get_Post_exhaust_witness :
    (testClient.SetRetryCount 2).Get (refusingWorld (fun _ => false))
        (bytesOf "http://httpbin.org/get") [] =
      { err := some (.TransportError .connectionRefused), out := none, sends := 3,
        sleeps := 2 } := by
  obtain ⟨f, hf, hget⟩ := (Get_Post_exhaust (refusingWorld (fun _ => false))
    (testClient.SetRetryCount 2) 2 (bytesOf "http://httpbin.org/get") MIMEJSON [] ()
    rfl (fun _ _ _ => ⟨_, rfl⟩) (fun _ _ => rfl)).1
  have hfe : f = .connectionRefused := by
    have h2 : SendOutcome.failure TransportFault.connectionRefused = SendOutcome.failure f := hf
    exact (SendOutcome.failure.inj h2).symm
  rw [hget, hfe]

/-- C1 as stated fails: with retry budget 1, every send refused and the
context cancelled during the first backoff sleep, `Get` performs one send, not
two, and returns the cancellation error, not a transport error. -/
theorem Get_exhaust_counterexample :
    (∀ tr req i, ∃ f, (refusingWorld (fun _ => true)).send tr req i = .failure f) ∧
    (testClient.SetRetryCount 1).retryCount = 1 ∧
    ((testClient.SetRetryCount 1).Get (refusingWorld (fun _ => true))
        (bytesOf "http://httpbin.org/get") []).sends ≠ 1 + 1 ∧
    ((testClient.SetRetryCount 1).Get (refusingWorld (fun _ => true))
        (bytesOf "http://httpbin.org/get") []).err = some (.CancellationError .canceled) :=
  ⟨fun _ _ _ => ⟨_, rfl⟩, rfl, by decide, by decide⟩

/-- C2. For every retry budget of at least 1, if the first send fails and the
caller's context ends during the first backoff sleep, `Get` and `Post` return
the context's cancellation error after exactly one send attempt. -/
theorem Get_Post_cancelled {Value Payload : Type} (w : World Value Payload) (c : HttpClient)
    (url contentType : GoString) (headers : List (GoString × GoString)) (body : Payload)
    (hr : 1 ≤ c.retryCount)
    (hfail : ∀ req, ∃ f, w.send c.transport req 0 = .failure f)
    (hdone : w.doneDuringSleep 0 = true) :
    c.Get w url headers =
      { err := some (.CancellationError w.cause), out := none, sends := 1, sleeps := 1 } ∧
    c.Post w url contentType headers body =
      { err := some (.CancellationError w.cause), out := none, sends := 1, sleeps := 1 } := by
  obtain ⟨r, hrn⟩ : ∃ r, c.retryCount.toNat = r + 1 := ⟨c.retryCount.toNat - 1, by omega⟩
  constructor
  · obtain ⟨f, hf⟩ := hfail
      { method := bytesOf "GET", url := url, contentType := none, headers := headers,
        body := none }
    unfold HttpClient.Get
    rw [hrn, retryLoop_eq, hf]
    simp only [hdone, if_true]
  · obtain ⟨f, hf⟩ := hfail
      { method := bytesOf "POST", url := url, contentType := some contentType,
        headers := headers, body := some (w.serialize contentType body) }
    unfold HttpClient.Post
    rw [hrn, retryLoop_eq, hf]
    simp only [hdone, if_true]

/-- C2 at the test client (budget 10), every send refused and the context
cancelled during the first backoff sleep. -/
theorem Get_Post_cancelled_witness :
    testClient.Get (refusingWorld (fun k => decide (k = 0)))
        (bytesOf "http://httpbin.org/get") [] =
      { err := some (.CancellationError .canceled), out := none, sends := 1, sleeps := 1 } ∧
    testClient.Post (refusingWorld (fun k => decide (k = 0)))
        (bytesOf "http://httpbin.org/post") MIMEJSON [] () =
      { err := some (.CancellationError .canceled), out := none, sends := 1, sleeps := 1 } :=
  ⟨(Get_Post_cancelled (refusingWorld (fun k => decide (k = 0))) testClient
      (bytesOf "http://httpbin.org/get") MIMEJSON [] () (by decide)
      (fun _ => ⟨_, rfl⟩) rfl).1,
   (Get_Post_cancelled (refusingWorld (fun k => decide (k = 0))) testClient
      (bytesOf "http://httpbin.org/post") MIMEJSON [] () (by decide)
      (fun _ => ⟨_, rfl⟩) rfl).2⟩

/-- C3. For every retry budget, when the send succeeds at the transport level
but the response body does not decode as JSON, `Get` and `Post` return that
decode error after exactly one send attempt, with no backoff and no retry. -/
theorem Get_Post_decode_error {Value Payload : Type} (w : World Value Payload)
    (c : HttpClient) (url contentType : GoString) (headers : List (GoString × GoString))
    (body : Payload)
    (hresp : ∀ req, ∃ b e, w.send c.transport req 0 = .response b ∧ w.decode b = .error e) :
    (∃ b e,
      w.send c.transport
        { method := bytesOf "GET", url := url, contentType := none, headers := headers,
          body := none } 0 = .response b ∧
      w.decode b = .error e ∧
      c.Get w url headers =
        { err := some (.DecodeError e), out := none, sends := 1, sleeps := 0 }) ∧
    (∃ b e,
      w.send c.transport
        { method := bytesOf "POST", url := url, contentType := some contentType,
          headers := headers, body := some (w.serialize contentType body) } 0
        = .response b ∧
      w.decode b = .error e ∧
      c.Post w url contentType headers body =
        { err := some (.DecodeError e), out := none, sends := 1, sleeps := 0 }) := by
  constructor
  · obtain ⟨b, e, hb, he⟩ := hresp
      { method := bytesOf "GET", url := url, contentType := none, headers := headers,
        body := none }
    refine ⟨b, e, hb, he, ?_⟩
    unfold HttpClient.Get
    rw [retryLoop_eq, hb]
    simp only [he]
  · obtain ⟨b, e, hb, he⟩ := hresp
      { method := bytesOf "POST", url := url, contentType := some contentType,
        headers := headers, body := some (w.serialize contentType body) }
    refine ⟨b, e, hb, he, ?_⟩
    unfold HttpClient.Post
    rw [retryLoop_eq, hb]
    simp only [he]

/-- C3 at the test client (budget 10) and a server that answers `<html>`. -/
theorem Get_Post_decode_error_witness :
    (testClient.Post garbledWorld (bytesOf "http://httpbin.org/post") MIMEJSON [] ()).sends
      = 1 ∧
    (testClient.Post garbledWorld (bytesOf "http://httpbin.org/post") MIMEJSON [] ()).err
      = some (.DecodeError (bytesOf "invalid character")) := by
  obtain ⟨b, e, -, he, hpost⟩ := (Get_Post_decode_error garbledWorld testClient
    (bytesOf "http://httpbin.org/post") MIMEJSON [] ()
    (fun _ => ⟨bytesOf "<html>", bytesOf "invalid character", rfl, rfl⟩)).2
  have hee : e = bytesOf "invalid character" := by
    have h2 : (Except.error (bytesOf "invalid character") : Except GoString Unit)
        = Except.error e := he
    exact (Except.error.inj h2).symm
  rw [hpost, hee]
  exact ⟨rfl, rfl⟩

/-- C4. For every client built by `NewHTTPClient` from a `Config` (with any
`retryCount`) and every `n`, after `SetRetryCount(n)` the client's retry budget
is `n`, which is the budget `Get` then runs with, and the transport, its
timeouts and the backoff interval are those built from the `Config`. -/
theorem SetRetryCount_frame (cfg : Config) (c : HttpClient) (n : Int)
    (h : NewHTTPClient cfg = .ok c) :
    (c.SetRetryCount n).retryCount = n ∧
    (c.SetRetryCount n).transport = c.transport ∧
    (c.SetRetryCount n).backoffInterval = c.backoffInterval ∧
    (c.SetRetryCount n).transport.dialTimeout = cfg.Dial ∧
    (c.SetRetryCount n).transport.requestTimeout = cfg.Timeout ∧
    (c.SetRetryCount n).transport.keepAlive = cfg.KeepAlive ∧
    (c.SetRetryCount n).backoffInterval = cfg.BackoffInterval ∧
    (∀ (Value Payload : Type) (w : World Value Payload) (url : GoString)
        (headers : List (GoString × GoString)),
      (c.SetRetryCount n).Get w url headers =
        retryLoop w c.transport
          { method := bytesOf "GET", url := url, contentType := none, headers := headers,
            body := none } n.toNat 0) := by
  unfold NewHTTPClient at h
  split at h
  · exact absurd h (by simp)
  · simp only [Except.ok.injEq] at h
    subst h
    exact ⟨rfl, rfl, rfl, rfl, rfl, rfl, rfl, fun _ _ _ _ _ => rfl⟩

/-- C4 at the configuration and the call `SetRetryCount(2)` of
`client_test.go`. -/
theorem SetRetryCount_frame_witness :
    NewHTTPClient testConfig = .ok testClient ∧
    (testClient.SetRetryCount 2).retryCount = 2 ∧
    (testClient.SetRetryCount 2).transport = testClient.transport ∧
    (testClient.SetRetryCount 2).backoffInterval = 1000000000 :=
  ⟨rfl, (SetRetryCount_frame testConfig testClient 2 rfl).1,
    (SetRetryCount_frame testConfig testClient 2 rfl).2.1,
    (SetRetryCount_frame testConfig testClient 2 rfl).2.2.2.2.2.2.1⟩

end httpclient
